import Mathlib

/-!
# Verification of the PR-agent unified-diff core

Shallow embedding of the diff parser (`github_handler._parse_diff_content`,
`github_handler._extract_line_changes`), the diff-position mapper
(`github_commenter._get_position_in_diff`), the comment publisher
(`github_commenter.post_comment`) and the LLM-response parser
(`llm_analyzer._parse_analysis_response`), together with theorems settling
the specification claims about them.

Python strings are modelled as Lean `String`, Python ints as `Int`
(arbitrary precision in both), Python exceptions as `Option`/`Except`
(`none` / `.error` = an exception propagating).
-/

namespace PrAgent

/-!
Python string primitives are modelled on `String.data` (`List Char`), so
that every definition evaluates inside the kernel; each is a direct model
of the corresponding Python `str` method.
-/

/-- Python `s.startswith(p)`. -/
def pyStartsWith (s p : String) : Bool :=
  p.data.isPrefixOf s.data

/-- Python `s.split(sep)` for a one-character separator, on character
lists: keeps empty fields, `[] ↦ [[]]`. -/
def splitChar (sep : Char) : List Char → List (List Char)
  | [] => [[]]
  | c :: cs =>
    if c == sep then [] :: splitChar sep cs
    else
      match splitChar sep cs with
      | [] => [[c]]
      | g :: gs => (c :: g) :: gs

/-- Python `s.split(sep)` for a one-character separator (the only kind this
code base uses: `'\n'`, `' '`, `','`). -/
def pySplit (s : String) (sep : Char) : List String :=
  (splitChar sep s.data).map String.mk

/-- Python `parts[i]` for `0 ≤ i < len(parts)` (the accesses below are
all guarded by a length test). -/
def getTok (parts : List String) (i : Nat) : String :=
  (parts.drop i).headD ""

/-- Python `s[n:]` for `n ≥ 0`. -/
def pyDrop (s : String) (n : Nat) : String :=
  String.mk (s.data.drop n)

/-- Python `sep in s` for a one-character `sep`. -/
def pyContains (s : String) (c : Char) : Bool :=
  s.data.contains c

/-- Python whitespace (the characters `str.strip()` and `int()` strip). -/
def isPyWs (c : Char) : Bool :=
  c == ' ' || c == '\t' || c == '\n' || c == '\r' || c == Char.ofNat 11 || c == Char.ofNat 12

/-- Python `s.strip()`. -/
def pyStrip (s : String) : String :=
  String.mk (((s.data.dropWhile isPyWs).reverse.dropWhile isPyWs).reverse)

/-- Value of a non-empty all-digit character list, else `none`. -/
def digitsVal (ds : List Char) : Option Nat :=
  if ds ≠ [] ∧ ds.all Char.isDigit then
    some (ds.foldl (fun a c => a * 10 + (c.toNat - '0'.toNat)) 0)
  else none

/-- Model of Python `int(s)` on the string arguments this code base feeds
it: leading/trailing whitespace is stripped, an optional `+` or `-` sign is
allowed, the rest must be decimal digits; anything else raises (here:
`none`). -/
def pyInt (s : String) : Option Int :=
  match (pyStrip s).data with
  | '-' :: ds => (digitsVal ds).map (fun n => -(n : Int))
  | '+' :: ds => (digitsVal ds).map (fun n => (n : Int))
  | ds => (digitsVal ds).map (fun n => (n : Int))

/-- Model of Python `'\n'.join(lines)`. -/
def joinLines : List String → String
  | [] => ""
  | [l] => l
  | l :: ls => l ++ "\n" ++ joinLines ls

/-- Numeric extraction from one token of a hunk header, as done in both
`_extract_line_changes` and `_get_position_in_diff`:
`int(info[1:].split(',')[0])` when the token contains a comma, else
`int(info[1:])`. -/
def parseStart (s : String) : Option Int :=
  if pyContains s ',' then pyInt ((pySplit (pyDrop s 1) ',').headD "")
  else pyInt (pyDrop s 1)

/-- One line-change record produced by `_extract_line_changes` (the Python
code uses dicts with a `type` tag; `content` holds `line[1:]`). -/
inductive Change where
  | addition (lineNum : Int) (content : String)
  | deletion (lineNum : Int) (content : String)
  | context (oldLineNum newLineNum : Int) (content : String)
deriving DecidableEq, Repr

/-- The loop body of `github_handler._extract_line_changes`, threading the
loop state `(in_hunk, old_line_num, new_line_num)`; `none` models a
`ValueError` escaping from `int(...)` on a malformed hunk header. -/
def extractGo : Bool → Int → Int → List String → Option (List Change)
  | _, _, _, [] => some []
  | inHunk, oldNum, newNum, line :: rest =>
    if pyStartsWith line "@@" then
      if 3 ≤ (pySplit line ' ').length then
        match parseStart (getTok (pySplit line ' ') 1),
            parseStart (getTok (pySplit line ' ') 2) with
        | some o, some n => extractGo true o n rest
        | _, _ => none
      else
        extractGo true oldNum newNum rest
    else if inHunk then
      if pyStartsWith line "+" then
        (extractGo inHunk oldNum (newNum + 1) rest).map
          (fun cs => Change.addition newNum (pyDrop line 1) :: cs)
      else if pyStartsWith line "-" then
        (extractGo inHunk (oldNum + 1) newNum rest).map
          (fun cs => Change.deletion oldNum (pyDrop line 1) :: cs)
      else if !(pyStartsWith line "\\") then
        (extractGo inHunk (oldNum + 1) (newNum + 1) rest).map
          (fun cs => Change.context oldNum newNum (pyDrop line 1) :: cs)
      else
        extractGo inHunk oldNum newNum rest
    else
      extractGo inHunk oldNum newNum rest

/-- Model of `github_handler._extract_line_changes(diff_lines)`. -/
def extractLineChanges (diffLines : List String) : Option (List Change) :=
  extractGo false 0 0 diffLines

/-- One value of the per-file dictionary built by `_parse_diff_content`:
`{'content': ..., 'changes': ...}`. -/
structure FileDiff where
  content : String
  changes : List Change
deriving DecidableEq, Repr

/-- Python dict assignment `d[k] = v`: replaces the value in place when the
key exists, appends at the end otherwise (insertion order preserved). -/
def dictInsert (d : List (String × FileDiff)) (k : String) (v : FileDiff) :
    List (String × FileDiff) :=
  if d.any (fun p => p.1 == k) then
    d.map (fun p => if p.1 == k then (k, v) else p)
  else
    d ++ [(k, v)]

/-- Python truthiness of the `current_file` variable (`None` and `''` are
falsy). -/
def fileTruthy : Option String → Bool
  | none => false
  | some f => !(f == "")

/-- The `if current_file and current_diff_lines: diffs[current_file] = ...`
step of `_parse_diff_content` (run both at a new `diff --git` header and at
end of input). -/
def saveCurrent (diffs : List (String × FileDiff)) (currentFile : Option String)
    (currentLines : List String) : Option (List (String × FileDiff)) :=
  match currentFile with
  | none => some diffs
  | some f =>
    if f ≠ "" ∧ currentLines ≠ [] then
      match extractLineChanges currentLines with
      | some cs => some (dictInsert diffs f ⟨joinLines currentLines, cs⟩)
      | none => none
    else
      some diffs

/-- The loop of `github_handler._parse_diff_content`, threading
`(diffs, current_file, current_diff_lines)`. -/
def parseGo : List (String × FileDiff) → Option String → List String →
    List String → Option (List (String × FileDiff))
  | diffs, currentFile, currentLines, [] => saveCurrent diffs currentFile currentLines
  | diffs, currentFile, currentLines, line :: rest =>
    if pyStartsWith line "diff --git" then
      match saveCurrent diffs currentFile currentLines with
      | none => none
      | some diffs' =>
        if 4 ≤ (pySplit line ' ').length then
          parseGo diffs' (some (pyDrop (getTok (pySplit line ' ') 3) 2)) [line] rest
        else
          parseGo diffs' currentFile currentLines rest
    else if fileTruthy currentFile then
      parseGo diffs currentFile (currentLines ++ [line]) rest
    else
      parseGo diffs currentFile currentLines rest

/-- Model of `github_handler._parse_diff_content(diff_content)`. -/
def parseDiffContent (diffContent : String) : Option (List (String × FileDiff)) :=
  parseGo [] none [] (pySplit diffContent '\n')

/-! ## Diff position mapper (`github_commenter._get_position_in_diff`) -/

/-- The per-file loop body of `github_commenter._get_position_in_diff`,
threading `(position, current_line)` and the target `line_number`; `none`
models a `ValueError` escaping from `int(...)` on a hunk header. The
returned value is either the position of the first match or, after the
loop, the running position (= total number of lines walked). -/
def positionGo : Int → Int → Int → List String → Option Int
  | position, _, _, [] => some position
  | position, currentLine, lineNumber, patchLine :: rest =>
    let position := position + 1
    if pyStartsWith patchLine "@@" then
      if 3 ≤ (pySplit patchLine ' ').length then
        match parseStart (getTok (pySplit patchLine ' ') 2) with
        | some c => positionGo position c lineNumber rest
        | none => none
      else
        positionGo position currentLine lineNumber rest
    else if pyStartsWith patchLine "+" || !(pyStartsWith patchLine "-") then
      if currentLine == lineNumber then some position
      else if !(pyStartsWith patchLine "\\") then
        positionGo position (currentLine + 1) lineNumber rest
      else
        positionGo position currentLine lineNumber rest
    else
      positionGo position currentLine lineNumber rest

/-- The body of `_get_position_in_diff` for one matching file:
`position = 0; current_line = 0;` then the walk over `file.patch.split('\n')`. -/
def getPositionInPatch (patch : String) (lineNumber : Int) : Option Int :=
  positionGo 0 0 lineNumber (pySplit patch '\n')

/-- The sequence of `current_line` values at which the walk of
`_get_position_in_diff` performs its `current_line == line_number`
comparison, in walk order (every non-hunk-header line not starting with
`-` is compared, including header lines before the first `@@` and
no-newline marker lines); `none` models a `ValueError` from `int(...)`. -/
def comparedValues : Int → List String → Option (List Int)
  | _, [] => some []
  | currentLine, patchLine :: rest =>
    if pyStartsWith patchLine "@@" then
      if 3 ≤ (pySplit patchLine ' ').length then
        match parseStart (getTok (pySplit patchLine ' ') 2) with
        | some c => comparedValues c rest
        | none => none
      else
        comparedValues currentLine rest
    else if pyStartsWith patchLine "+" || !(pyStartsWith patchLine "-") then
      if !(pyStartsWith patchLine "\\") then
        (comparedValues (currentLine + 1) rest).map (fun vs => currentLine :: vs)
      else
        (comparedValues currentLine rest).map (fun vs => currentLine :: vs)
    else
      comparedValues currentLine rest

/-! ## Comment publisher (`github_commenter.post_comment`) -/

/-- Python exception classes relevant to `post_comment`: `GithubException`
(raised by the platform client, caught by the handler) versus any other
`Exception` (e.g. the `raise Exception(...)` in `_get_position_in_diff`,
or a `ValueError` from `int`), which the `except GithubException` clause
does not catch. -/
inductive Exc where
  | github (msg : String)
  | generic (msg : String)
deriving DecidableEq, Repr

/-- Full `github_commenter._get_position_in_diff(pull_request, file_path,
line_number)`: scan `pull_request.get_files()` (modelled as a list of
`(filename, patch)` pairs) for the first file with the given path and walk
its patch; if no file matches, `raise Exception("File ... not found in the
pull request")` — a generic exception, not a `GithubException`. -/
def getPositionInDiffE (files : List (String × String)) (filePath : String)
    (lineNumber : Int) : Except Exc Int :=
  match files.find? (fun f => f.1 == filePath) with
  | some f =>
    match getPositionInPatch f.2 lineNumber with
    | some p => Except.ok p
    | none => Except.error (Exc.generic "invalid literal for int() with base 10")
  | none =>
    Except.error (Exc.generic ("File " ++ filePath ++ " not found in the pull request"))

/-- The fallback body built by `_post_fallback_comment`:
`f"**{file_path}:{line_number}**\n\n{comment_text}"`. -/
def fallbackBody (filePath : String) (lineNumber : Int) (commentText : String) : String :=
  "**" ++ filePath ++ ":" ++ toString lineNumber ++ "**\n\n" ++ commentText

/-- Model of `github_commenter.post_comment`. External platform calls are modelled as
oracle arguments: `prelim` stands for `get_repo`/`get_pull`/commit fetch
(everything in the `try` block before the position computation),
`createReviewComment` for `pull_request.create_review_comment` at the
computed position, and `createIssueComment` for the whole of
`_post_fallback_comment` (its own `get_repo`/`get_pull` included) applied
to the formatted body. Only a `GithubException` from the primary attempt is
caught and triggers the fallback; the fallback's `except Exception` catches
everything and yields `False`. Any other exception propagates (`.error`). -/
def postComment (prelim : Except Exc Unit)
    (createReviewComment : Int → Except Exc Unit)
    (createIssueComment : String → Except Exc Unit)
    (files : List (String × String)) (filePath : String) (lineNumber : Int)
    (commentText : String) : Except Exc Bool :=
  match (do
      prelim
      let pos ← getPositionInDiffE files filePath lineNumber
      createReviewComment pos : Except Exc Unit) with
  | Except.ok _ => Except.ok true
  | Except.error (Exc.github _) =>
    match createIssueComment (fallbackBody filePath lineNumber commentText) with
    | Except.ok _ => Except.ok true
    | Except.error _ => Except.ok false
  | Except.error (Exc.generic m) => Except.error (Exc.generic m)

/-! ## LLM response parsing (`llm_analyzer._parse_analysis_response`)

The JSON decoder below models Python's `json.loads` (standard library,
external to the repository) on the JSON fragment this code consumes:
objects, arrays, strings with the standard escapes, integer numbers,
`true`/`false`/`null`, with JSON whitespace. -/

/-- JSON values as produced by `json.loads` (numbers restricted to
integers, which is all the reviewed protocol uses). -/
inductive Json where
  | null
  | bool (b : Bool)
  | num (n : Int)
  | str (s : String)
  | arr (elems : List Json)
  | obj (fields : List (String × Json))
deriving Repr

/-- JSON whitespace characters. -/
def isJsonWs (c : Char) : Bool :=
  c == ' ' || c == '\t' || c == '\n' || c == '\r'

/-- Drop leading JSON whitespace. -/
def skipWs : List Char → List Char
  | [] => []
  | c :: cs => if isJsonWs c then skipWs cs else c :: cs

/-- One hexadecimal digit. -/
def hexDigit (c : Char) : Option Nat :=
  if '0' ≤ c ∧ c ≤ '9' then some (c.toNat - '0'.toNat)
  else if 'a' ≤ c ∧ c ≤ 'f' then some (c.toNat - 'a'.toNat + 10)
  else if 'A' ≤ c ∧ c ≤ 'F' then some (c.toNat - 'A'.toNat + 10)
  else none

/-- Body of a JSON string after the opening quote: returns the decoded
characters and the input remaining after the closing quote. -/
def parseStringBody : List Char → Option (List Char × List Char)
  | [] => none
  | '"' :: rest => some ([], rest)
  | '\\' :: esc :: rest =>
    match esc with
    | '"' => (parseStringBody rest).map (fun p => ('"' :: p.1, p.2))
    | '\\' => (parseStringBody rest).map (fun p => ('\\' :: p.1, p.2))
    | '/' => (parseStringBody rest).map (fun p => ('/' :: p.1, p.2))
    | 'b' => (parseStringBody rest).map (fun p => (Char.ofNat 8 :: p.1, p.2))
    | 'f' => (parseStringBody rest).map (fun p => (Char.ofNat 12 :: p.1, p.2))
    | 'n' => (parseStringBody rest).map (fun p => ('\n' :: p.1, p.2))
    | 'r' => (parseStringBody rest).map (fun p => ('\r' :: p.1, p.2))
    | 't' => (parseStringBody rest).map (fun p => ('\t' :: p.1, p.2))
    | 'u' =>
      match rest with
      | h1 :: h2 :: h3 :: h4 :: rest' =>
        match hexDigit h1, hexDigit h2, hexDigit h3, hexDigit h4 with
        | some d1, some d2, some d3, some d4 =>
          (parseStringBody rest').map
            (fun p => (Char.ofNat (((d1 * 16 + d2) * 16 + d3) * 16 + d4) :: p.1, p.2))
        | _, _, _, _ => none
      | _ => none
    | _ => none
  | c :: rest => (parseStringBody rest).map (fun p => (c :: p.1, p.2))

/-- Leading decimal digits: their value and the remaining input. -/
def parseDigits (cs : List Char) : Option (Nat × List Char) :=
  let ds := cs.takeWhile Char.isDigit
  if ds = [] then none
  else some (ds.foldl (fun a c => a * 10 + (c.toNat - '0'.toNat)) 0, cs.dropWhile Char.isDigit)

mutual

/-- One JSON value (fuel-indexed recursive descent). -/
def parseVal : Nat → List Char → Option (Json × List Char)
  | 0, _ => none
  | fuel + 1, cs =>
    match skipWs cs with
    | '[' :: rest =>
      match skipWs rest with
      | ']' :: rest' => some (Json.arr [], rest')
      | rest' => (parseElems fuel rest').map (fun p => (Json.arr p.1, p.2))
    | '\x7b' :: rest =>
      match skipWs rest with
      | '\x7d' :: rest' => some (Json.obj [], rest')
      | rest' => (parseFields fuel rest').map (fun p => (Json.obj p.1, p.2))
    | '"' :: rest => (parseStringBody rest).map (fun p => (Json.str (String.mk p.1), p.2))
    | 't' :: 'r' :: 'u' :: 'e' :: rest => some (Json.bool true, rest)
    | 'f' :: 'a' :: 'l' :: 's' :: 'e' :: rest => some (Json.bool false, rest)
    | 'n' :: 'u' :: 'l' :: 'l' :: rest => some (Json.null, rest)
    | '-' :: rest => (parseDigits rest).map (fun p => (Json.num (-(p.1 : Int)), p.2))
    | cs' => (parseDigits cs').map (fun p => (Json.num (p.1 : Int), p.2))

/-- Comma-separated array elements up to the closing `]`. -/
def parseElems : Nat → List Char → Option (List Json × List Char)
  | 0, _ => none
  | fuel + 1, cs => do
    let (v, r) ← parseVal fuel cs
    match skipWs r with
    | ',' :: r' => do
      let (vs, r'') ← parseElems fuel r'
      pure (v :: vs, r'')
    | ']' :: r' => pure ([v], r')
    | _ => none

/-- Comma-separated object members up to the closing brace. -/
def parseFields : Nat → List Char → Option (List (String × Json) × List Char)
  | 0, _ => none
  | fuel + 1, cs =>
    match skipWs cs with
    | '"' :: rest => do
      let (k, r) ← parseStringBody rest
      match skipWs r with
      | ':' :: r' => do
        let (v, r'') ← parseVal fuel r'
        match skipWs r'' with
        | ',' :: r3 => do
          let (fs, r4) ← parseFields fuel r3
          pure ((String.mk k, v) :: fs, r4)
        | '\x7d' :: r3 => pure ([(String.mk k, v)], r3)
        | _ => none
      | _ => none
    | _ => none

end

/-- Model of `json.loads`: one JSON value spanning the whole input (up to
whitespace), `none` = `json.JSONDecodeError`. -/
def jsonLoads (s : String) : Option Json :=
  match parseVal (2 * s.data.length + 2) s.data with
  | some (v, rest) => if skipWs rest = [] then some v else none
  | none => none

/-- Python `s.find(c)`: index of the first occurrence, `-1` if absent. -/
def pyFind (s : String) (c : Char) : Int :=
  match s.data.findIdx? (fun x => x == c) with
  | some i => (i : Int)
  | none => -1

/-- Python `s.rfind(c)`: index of the last occurrence, `-1` if absent. -/
def pyRfind (s : String) (c : Char) : Int :=
  match s.data.reverse.findIdx? (fun x => x == c) with
  | some i => (s.data.length : Int) - 1 - (i : Int)
  | none => -1

/-- Python `s[a:b]` for `0 ≤ a ≤ b` (the only case this code reaches). -/
def pySlice (s : String) (a b : Int) : String :=
  String.mk ((s.data.drop a.toNat).take (b - a).toNat)

/-- The validation filter of `_parse_analysis_response`:
`isinstance(comment, dict) and 'line' in comment and 'content' in comment`. -/
def isValidComment (c : Json) : Bool :=
  match c with
  | Json.obj fields =>
    (fields.any (fun p => p.1 == "line")) && (fields.any (fun p => p.1 == "content"))
  | _ => false

/-- Model of `llm_analyzer._parse_analysis_response(analysis_text, additions)` (the
`additions` argument is unused by the Python body). A decode failure is the
caught `json.JSONDecodeError`, yielding `[]`. The decoded span begins with
the first `[` of the text, so a successful decode is always an array; the
`some _` arm is unreachable and mirrors Python iterating a non-list. -/
def parseAnalysisResponse (analysisText : String) : List Json :=
  if 0 ≤ pyFind analysisText '[' ∧ pyFind analysisText '[' < pyRfind analysisText ']' + 1 then
    match jsonLoads
        (pySlice analysisText (pyFind analysisText '[') (pyRfind analysisText ']' + 1)) with
    | some (Json.arr comments) => comments.filter isValidComment
    | some _ => []
    | none => []
  else
    []

/-! ## Derived notions used to state the invariant claims -/

/-- The `newLineNumber` carried by an Addition or Context entry. -/
def selNew : Change → Option Int
  | Change.addition n _ => some n
  | Change.context _ n _ => some n
  | Change.deletion _ _ => none

/-- The `oldLineNumber` carried by a Deletion or Context entry. -/
def selOld : Change → Option Int
  | Change.deletion o _ => some o
  | Change.context o _ _ => some o
  | Change.addition _ _ => none

/-- One hunk of a file's diff: its header line, the `(oldStart, newStart)`
the header declares, and its body lines. -/
structure Hunk where
  header : String
  oldStart : Int
  newStart : Int
  body : List String

/-- The raw lines a hunk contributes to the file's diff. -/
def hunkLines (h : Hunk) : List String :=
  h.header :: h.body

/-- The change records the extractor emits for one hunk body started at
counters `(o, n)` (proved below to agree with `extractGo` on hunk bodies). -/
def hunkChanges : Int → Int → List String → List Change
  | _, _, [] => []
  | o, n, l :: ls =>
    if pyStartsWith l "+" then Change.addition n (pyDrop l 1) :: hunkChanges o (n + 1) ls
    else if pyStartsWith l "-" then Change.deletion o (pyDrop l 1) :: hunkChanges (o + 1) n ls
    else if !(pyStartsWith l "\\") then
      Change.context o n (pyDrop l 1) :: hunkChanges (o + 1) (n + 1) ls
    else hunkChanges o n ls

/-- How many body lines advance the new-file counter (additions and
context lines). -/
def newCount : List String → Nat
  | [] => 0
  | l :: ls =>
    if pyStartsWith l "+" then newCount ls + 1
    else if pyStartsWith l "-" then newCount ls
    else if !(pyStartsWith l "\\") then newCount ls + 1
    else newCount ls

/-- How many body lines advance the old-file counter (deletions and
context lines). -/
def oldCount : List String → Nat
  | [] => 0
  | l :: ls =>
    if pyStartsWith l "+" then oldCount ls
    else if pyStartsWith l "-" then oldCount ls + 1
    else if !(pyStartsWith l "\\") then oldCount ls + 1
    else oldCount ls

/-- A hunk is well formed when its header carries the `@@` marker, has at
least three space-separated tokens whose `-`/`+` tokens parse to the
declared starts, and its body contains no further hunk header. -/
abbrev WFHunk (h : Hunk) : Prop :=
  pyStartsWith h.header "@@" = true ∧
  3 ≤ (pySplit h.header ' ').length ∧
  parseStart (getTok (pySplit h.header ' ') 1) = some h.oldStart ∧
  parseStart (getTok (pySplit h.header ' ') 2) = some h.newStart ∧
  ∀ l ∈ h.body, pyStartsWith l "@@" = false

/-- Consecutive hunks of a well-formed diff do not run backwards: each
hunk starts at or after the point where the previous one's counters end. -/
abbrev HunksChained (hunks : List Hunk) : Prop :=
  List.Chain'
    (fun h1 h2 =>
      h1.newStart + (newCount h1.body : Int) ≤ h2.newStart ∧
      h1.oldStart + (oldCount h1.body : Int) ≤ h2.oldStart)
    hunks

/-- One per-file segment of a unified diff: its `diff --git` header line
and the following lines up to the next file header. -/
structure Seg where
  header : String
  body : List String

/-- The raw lines of a file segment. -/
def segLines (s : Seg) : List String :=
  s.header :: s.body

/-- The path `_parse_diff_content` derives from a `diff --git` header:
the fourth space-separated token with its `b/` stripped. -/
def segPath (s : Seg) : String :=
  pyDrop (getTok (pySplit s.header ' ') 3) 2

/-- A file segment is well formed when its header is a `diff --git` line
with at least four tokens yielding a non-empty path, and no body line
starts another file. -/
abbrev WFSeg (s : Seg) : Prop :=
  pyStartsWith s.header "diff --git" = true ∧
  4 ≤ (pySplit s.header ' ').length ∧
  segPath s ≠ "" ∧
  ∀ l ∈ s.body, pyStartsWith l "diff --git" = false

/-! ## Helper lemmas -/

/-- Lines before any `diff --git` header are skipped by the parse loop
while no file is open. -/
theorem parseGo_skip_no_header (d : List (String × FileDiff)) (pre rest : List String)
    (hpre : ∀ l ∈ pre, pyStartsWith l "diff --git" = false) :
    parseGo d none [] (pre ++ rest) = parseGo d none [] rest := by
  induction pre with
  | nil => rfl
  | cons l ls ih =>
    have h := hpre l (List.mem_cons_self l ls)
    have hstep : parseGo d none [] ((l :: ls) ++ rest) = parseGo d none [] (ls ++ rest) := by
      simp [parseGo, h, fileTruthy]
    rw [hstep, ih (fun x hx => hpre x (List.mem_cons_of_mem _ hx))]

/-! ## Claims -/

/-- Claim C1 (amended): parsing the diff text
`diff --git a/f.py b/f.py\n@@ -1,2 +1,3 @@\n context\n+added line\n-removed line\n`
yields a mapping with exactly one key `f.py` whose change list has exactly
**four** entries, in order: Context(old=1,new=1), Addition(new=2),
Deletion(old=2), and Context(old=3,new=3) — the last coming from the empty
final element that Python's `split('\n')` produces for the text's trailing
newline, which the extractor treats as an in-hunk context line. -/
theorem c1_amended_parse_example :
    parseDiffContent
        "diff --git a/f.py b/f.py\n@@ -1,2 +1,3 @@\n context\n+added line\n-removed line\n" =
      some [("f.py",
        { content :=
            "diff --git a/f.py b/f.py\n@@ -1,2 +1,3 @@\n context\n+added line\n-removed line\n",
          changes :=
            [Change.context 1 1 "context", Change.addition 2 "added line",
             Change.deletion 2 "removed line", Change.context 3 3 ""] })] := by
  rfl

/-- Claim C1 counterexample: on the claim's input the parsed change list for
`f.py` has four entries, not the three the claim states (`length ≠ 3`), so
the claim's "exactly the three entries ... with no further entries" fails. -/
theorem c1_counterexample :
    ((parseDiffContent
        "diff --git a/f.py b/f.py\n@@ -1,2 +1,3 @@\n context\n+added line\n-removed line\n").getD
        []).map (fun p => (p.1, p.2.changes)) =
      [("f.py",
        [Change.context 1 1 "context", Change.addition 2 "added line",
         Change.deletion 2 "removed line", Change.context 3 3 ""])] ∧
    [Change.context 1 1 "context", Change.addition 2 "added line",
     Change.deletion 2 "removed line", Change.context 3 3 ""].length ≠ 3 :=
  ⟨rfl, by decide⟩

/-- Claim C2: for every line consumed while inside a hunk (a line that is not
itself a new `@@` hunk header): a `+` line produces exactly one Addition at
the current `newLineNumber` and increments only `newLineNumber`; a `-` line
produces exactly one Deletion at the current `oldLineNumber` and increments
only `oldLineNumber`; a `\` line produces no record and changes neither
counter; every other line produces exactly one Context with both counters
and increments both. (The hypotheses follow the code's `elif` chain; a line
starting with `\` trivially starts with neither `+` nor `-`.) -/
theorem c2_in_hunk_line_step (line : String) (oldNum newNum : Int) (rest : List String)
    (hhdr : pyStartsWith line "@@" = false) :
    (pyStartsWith line "+" = true →
      extractGo true oldNum newNum (line :: rest) =
        (extractGo true oldNum (newNum + 1) rest).map
          (fun cs => Change.addition newNum (pyDrop line 1) :: cs)) ∧
    (pyStartsWith line "+" = false → pyStartsWith line "-" = true →
      extractGo true oldNum newNum (line :: rest) =
        (extractGo true (oldNum + 1) newNum rest).map
          (fun cs => Change.deletion oldNum (pyDrop line 1) :: cs)) ∧
    (pyStartsWith line "+" = false → pyStartsWith line "-" = false →
      pyStartsWith line "\\" = true →
      extractGo true oldNum newNum (line :: rest) = extractGo true oldNum newNum rest) ∧
    (pyStartsWith line "+" = false → pyStartsWith line "-" = false →
      pyStartsWith line "\\" = false →
      extractGo true oldNum newNum (line :: rest) =
        (extractGo true (oldNum + 1) (newNum + 1) rest).map
          (fun cs => Change.context oldNum newNum (pyDrop line 1) :: cs)) := by
  refine ⟨fun h1 => ?_, fun h1 h2 => ?_, fun h1 h2 h3 => ?_, fun h1 h2 h3 => ?_⟩ <;>
    simp [extractGo, hhdr, h1, *]

/-- Witness for C2 at a concrete input: the line `+x` with counters
`(5, 7)` yields one Addition at 7. -/
theorem c2_in_hunk_line_step_witness :
    pyStartsWith "+x" "@@" = false ∧
    extractGo true 5 7 ["+x"] = some [Change.addition 7 "x"] := by
  refine ⟨by decide, ?_⟩
  have h := (c2_in_hunk_line_step "+x" 5 7 [] (by decide)).1 (by decide)
  rw [h]
  rfl

/-- Claim C6: a hunk header line with fewer than three space-separated tokens
does not fail extraction: numeric extraction is skipped, the counters are
left exactly as they were, the in-hunk flag is set, and processing
continues with the remaining lines. -/
theorem c6_malformed_hunk_header (line : String) (inHunk : Bool) (oldNum newNum : Int)
    (rest : List String) (h1 : pyStartsWith line "@@" = true)
    (h2 : (pySplit line ' ').length < 3) :
    extractGo inHunk oldNum newNum (line :: rest) = extractGo true oldNum newNum rest := by
  have h2' : ¬ 3 ≤ (pySplit line ' ').length := by omega
  simp [extractGo, h1, h2']

/-- Witness for C6 at a concrete input: the bare header `@@` (one token). -/
theorem c6_malformed_hunk_header_witness :
    pyStartsWith "@@" "@@" = true ∧ (pySplit "@@" ' ').length < 3 ∧
    extractGo false 0 0 ["@@", "+a"] = extractGo true 0 0 ["+a"] := by
  refine ⟨by decide, by decide, ?_⟩
  exact c6_malformed_hunk_header "@@" false 0 0 ["+a"] (by decide) (by decide)

/-- Claim C10: lines occurring before the first `diff --git` header are
discarded entirely — parsing `pre ++ rest` equals parsing `rest` when `pre`
has no file header — and a text with no `diff --git` header at all parses
to the empty mapping. -/
theorem c10_pre_header_lines_discarded (pre rest : List String) (t : String)
    (hpre : ∀ l ∈ pre, pyStartsWith l "diff --git" = false)
    (ht : ∀ l ∈ pySplit t '\n', pyStartsWith l "diff --git" = false) :
    parseGo [] none [] (pre ++ rest) = parseGo [] none [] rest ∧
    parseDiffContent t = some [] := by
  refine ⟨parseGo_skip_no_header [] pre rest hpre, ?_⟩
  have h := parseGo_skip_no_header [] (pySplit t '\n') [] ht
  rw [List.append_nil] at h
  rw [parseDiffContent, h]
  rfl

/-- Witness for C10 at concrete inputs. -/
theorem c10_pre_header_lines_discarded_witness :
    (∀ l ∈ ["index abc", " ctx"], pyStartsWith l "diff --git" = false) ∧
    parseGo [] none [] (["index abc", " ctx"] ++ ["diff --git a/a b/a"]) =
      parseGo [] none [] ["diff --git a/a b/a"] ∧
    parseDiffContent "hello\nworld" = some [] := by
  refine ⟨by decide, ?_, ?_⟩
  · exact (c10_pre_header_lines_discarded ["index abc", " ctx"] ["diff --git a/a b/a"]
      "hello\nworld" (by decide) (by decide)).1
  · exact (c10_pre_header_lines_discarded ["index abc", " ctx"] ["diff --git a/a b/a"]
      "hello\nworld" (by decide) (by decide)).2

/-- Position-walk step: a hunk header whose `+` token parses resets the
counter. -/
theorem positionGo_cons_header (l : String) (ls : List String) (pos c t c2 : Int)
    (hh : pyStartsWith l "@@" = true) (hl : 3 ≤ (pySplit l ' ').length)
    (hp : parseStart (getTok (pySplit l ' ') 2) = some c2) :
    positionGo pos c t (l :: ls) = positionGo (pos + 1) c2 t ls := by
  simp [positionGo, hh, hl, hp]

/-- Position-walk step: a hunk header whose `+` token fails to parse
raises. -/
theorem positionGo_cons_header_none (l : String) (ls : List String) (pos c t : Int)
    (hh : pyStartsWith l "@@" = true) (hl : 3 ≤ (pySplit l ' ').length)
    (hp : parseStart (getTok (pySplit l ' ') 2) = none) :
    positionGo pos c t (l :: ls) = none := by
  simp [positionGo, hh, hl, hp]

/-- Position-walk step: a short hunk header is skipped. -/
theorem positionGo_cons_short_header (l : String) (ls : List String) (pos c t : Int)
    (hh : pyStartsWith l "@@" = true) (hl : ¬ 3 ≤ (pySplit l ' ').length) :
    positionGo pos c t (l :: ls) = positionGo (pos + 1) c t ls := by
  simp [positionGo, hh, hl]

/-- Position-walk step: a compared line that misses the target and is a
no-newline marker leaves the counter unchanged. -/
theorem positionGo_cons_miss_marker (l : String) (ls : List String) (pos c t : Int)
    (hh : pyStartsWith l "@@" = false)
    (hc : (pyStartsWith l "+" || !(pyStartsWith l "-")) = true)
    (hne : (c == t) = false) (hbs : pyStartsWith l "\\" = true) :
    positionGo pos c t (l :: ls) = positionGo (pos + 1) c t ls := by
  simp [positionGo, hh, hc, hne, hbs]

/-- Position-walk step: a compared line that misses the target advances the
counter. -/
theorem positionGo_cons_miss_normal (l : String) (ls : List String) (pos c t : Int)
    (hh : pyStartsWith l "@@" = false)
    (hc : (pyStartsWith l "+" || !(pyStartsWith l "-")) = true)
    (hne : (c == t) = false) (hbs : pyStartsWith l "\\" = false) :
    positionGo pos c t (l :: ls) = positionGo (pos + 1) (c + 1) t ls := by
  simp [positionGo, hh, hc, hne, hbs]

/-- Position-walk step: a deletion line is not compared. -/
theorem positionGo_cons_minus (l : String) (ls : List String) (pos c t : Int)
    (hh : pyStartsWith l "@@" = false)
    (hc : (pyStartsWith l "+" || !(pyStartsWith l "-")) = false) :
    positionGo pos c t (l :: ls) = positionGo (pos + 1) c t ls := by
  simp [positionGo, hh, hc]

/-- Compared-values step: parsed hunk header. -/
theorem comparedValues_cons_header (l : String) (ls : List String) (c c2 : Int)
    (hh : pyStartsWith l "@@" = true) (hl : 3 ≤ (pySplit l ' ').length)
    (hp : parseStart (getTok (pySplit l ' ') 2) = some c2) :
    comparedValues c (l :: ls) = comparedValues c2 ls := by
  simp [comparedValues, hh, hl, hp]

/-- Compared-values step: hunk header that fails to parse. -/
theorem comparedValues_cons_header_none (l : String) (ls : List String) (c : Int)
    (hh : pyStartsWith l "@@" = true) (hl : 3 ≤ (pySplit l ' ').length)
    (hp : parseStart (getTok (pySplit l ' ') 2) = none) :
    comparedValues c (l :: ls) = none := by
  simp [comparedValues, hh, hl, hp]

/-- Compared-values step: short hunk header. -/
theorem comparedValues_cons_short_header (l : String) (ls : List String) (c : Int)
    (hh : pyStartsWith l "@@" = true) (hl : ¬ 3 ≤ (pySplit l ' ').length) :
    comparedValues c (l :: ls) = comparedValues c ls := by
  simp [comparedValues, hh, hl]

/-- Compared-values step: compared no-newline marker line. -/
theorem comparedValues_cons_compare_marker (l : String) (ls : List String) (c : Int)
    (hh : pyStartsWith l "@@" = false)
    (hc : (pyStartsWith l "+" || !(pyStartsWith l "-")) = true)
    (hbs : pyStartsWith l "\\" = true) :
    comparedValues c (l :: ls) = (comparedValues c ls).map (fun vs => c :: vs) := by
  simp [comparedValues, hh, hc, hbs]

/-- Compared-values step: compared ordinary line. -/
theorem comparedValues_cons_compare_normal (l : String) (ls : List String) (c : Int)
    (hh : pyStartsWith l "@@" = false)
    (hc : (pyStartsWith l "+" || !(pyStartsWith l "-")) = true)
    (hbs : pyStartsWith l "\\" = false) :
    comparedValues c (l :: ls) = (comparedValues (c + 1) ls).map (fun vs => c :: vs) := by
  simp [comparedValues, hh, hc, hbs]

/-- Compared-values step: deletion line. -/
theorem comparedValues_cons_minus (l : String) (ls : List String) (c : Int)
    (hh : pyStartsWith l "@@" = false)
    (hc : (pyStartsWith l "+" || !(pyStartsWith l "-")) = false) :
    comparedValues c (l :: ls) = comparedValues c ls := by
  simp [comparedValues, hh, hc]

/-- If no comparison performed by the position walk carries the target
value (and every hunk header it meets parses), the walk falls off the end
and returns the accumulated position plus the number of lines. -/
theorem positionGo_no_match (target : Int) :
    ∀ (lines : List String) (pos c : Int) (vs : List Int),
      comparedValues c lines = some vs → target ∉ vs →
      positionGo pos c target lines = some (pos + lines.length) := by
  intro lines
  induction lines with
  | nil =>
    intro pos c vs _ _
    simp [positionGo]
  | cons l ls ih =>
    intro pos c vs h1 h2
    have harith : pos + ((l :: ls).length : Int) = pos + 1 + (ls.length : Int) := by
      simp only [List.length_cons]
      push_cast
      ring
    rw [harith]
    by_cases hh : pyStartsWith l "@@" = true
    · by_cases hl : 3 ≤ (pySplit l ' ').length
      · cases hp : parseStart (getTok (pySplit l ' ') 2) with
        | none =>
          rw [comparedValues_cons_header_none l ls c hh hl hp] at h1
          exact absurd h1 (by simp)
        | some c2 =>
          rw [comparedValues_cons_header l ls c c2 hh hl hp] at h1
          rw [positionGo_cons_header l ls pos c target c2 hh hl hp]
          exact ih (pos + 1) c2 vs h1 h2
      · rw [comparedValues_cons_short_header l ls c hh hl] at h1
        rw [positionGo_cons_short_header l ls pos c target hh hl]
        exact ih (pos + 1) c vs h1 h2
    · have hh' : pyStartsWith l "@@" = false := by
        cases hx : pyStartsWith l "@@" with
        | false => rfl
        | true => exact absurd hx hh
      by_cases hc : (pyStartsWith l "+" || !(pyStartsWith l "-")) = true
      · by_cases hbs : pyStartsWith l "\\" = true
        · rw [comparedValues_cons_compare_marker l ls c hh' hc hbs] at h1
          obtain ⟨vs', hvs', hvs2⟩ := Option.map_eq_some'.mp h1
          subst hvs2
          rw [List.mem_cons, not_or] at h2
          have hne : (c == target) = false := by
            rw [beq_eq_false_iff_ne]
            exact fun h => h2.1 h.symm
          rw [positionGo_cons_miss_marker l ls pos c target hh' hc hne hbs]
          exact ih (pos + 1) c vs' hvs' h2.2
        · have hbs' : pyStartsWith l "\\" = false := by
            cases hx : pyStartsWith l "\\" with
            | false => rfl
            | true => exact absurd hx hbs
          rw [comparedValues_cons_compare_normal l ls c hh' hc hbs'] at h1
          obtain ⟨vs', hvs', hvs2⟩ := Option.map_eq_some'.mp h1
          subst hvs2
          rw [List.mem_cons, not_or] at h2
          have hne : (c == target) = false := by
            rw [beq_eq_false_iff_ne]
            exact fun h => h2.1 h.symm
          rw [positionGo_cons_miss_normal l ls pos c target hh' hc hne hbs']
          exact ih (pos + 1) (c + 1) vs' hvs' h2.2
      · have hc' : (pyStartsWith l "+" || !(pyStartsWith l "-")) = false := by
          cases hx : (pyStartsWith l "+" || !(pyStartsWith l "-")) with
          | false => rfl
          | true => exact absurd hx hc
        rw [comparedValues_cons_minus l ls c hh' hc'] at h1
        rw [positionGo_cons_minus l ls pos c target hh' hc']
        exact ih (pos + 1) c vs h1 h2

/-- Claim C4 (amended): for a patch text whose first line is a well-formed
`@@` hunk header (the shape of PR file-list patches: no `diff --git` /
`index` / `---` / `+++` lines before it) and whose first in-hunk line is an
Addition or Context line, `positionOf` applied to the header's declared
`newStart` returns 2 — the number of header lines preceding that line (one)
plus 1. On patches carrying the usual file headers before the first `@@`
the code can return early at one of those header lines, see the
counterexample. -/
theorem c4_amended_first_hunk_position (patch hdr b : String) (rest : List String) (n : Int)
    (hsplit : pySplit patch '\n' = hdr :: b :: rest)
    (h1 : pyStartsWith hdr "@@" = true)
    (h2 : 3 ≤ (pySplit hdr ' ').length)
    (h3 : parseStart (getTok (pySplit hdr ' ') 2) = some n)
    (hb1 : pyStartsWith b "@@" = false)
    (hb2 : pyStartsWith b "-" = false)
    (hb3 : pyStartsWith b "\\" = false) :
    getPositionInPatch patch n = some 2 := by
  rw [getPositionInPatch, hsplit]
  rw [positionGo_cons_header hdr (b :: rest) 0 0 n n h1 h2 h3]
  rw [positionGo]
  simp [hb1, hb2]

/-- Witness for C4 (amended) at a concrete patch. -/
theorem c4_amended_first_hunk_position_witness :
    pySplit "@@ -1,2 +1,3 @@\n context\n+added" '\n' =
      "@@ -1,2 +1,3 @@" :: " context" :: ["+added"] ∧
    parseStart (getTok (pySplit "@@ -1,2 +1,3 @@" ' ') 2) = some 1 ∧
    getPositionInPatch "@@ -1,2 +1,3 @@\n context\n+added" 1 = some 2 := by
  refine ⟨by decide, by decide, ?_⟩
  exact c4_amended_first_hunk_position "@@ -1,2 +1,3 @@\n context\n+added"
    "@@ -1,2 +1,3 @@" " context" ["+added"] 1 (by decide) (by decide) (by decide)
    (by decide) (by decide) (by decide) (by decide)

/-- Claim C4 counterexample: on the full-format patch below, the first hunk
header is well formed with `newStart = 1` and the first in-hunk line ` x`
is a Context line, preceded by 5 header lines, so the claim requires
`positionOf(1) = 6`; the code instead compares its counter on the
`diff --git` and `index` header lines (they do not start with `-`) and
returns position 2 at the `index` line. -/
theorem c4_counterexample :
    getPositionInPatch
        "diff --git a/f b/f\nindex 111..222 100644\n--- a/f\n+++ b/f\n@@ -1,2 +1,3 @@\n x\n+y\n z"
        1 = some 2 ∧
    (2 : Int) ≠ 5 + 1 :=
  ⟨rfl, by decide⟩

/-- Claim C5 (amended): `positionOf` returns the total number of lines of the
patch text, without raising, provided the target is never equal to the
walk's counter at any compared line — the compared lines being every
non-hunk-header line not starting with `-`, which includes file-header
lines before the first hunk and no-newline marker lines besides the
Addition/Context lines. (The claim's weaker hypothesis — only Addition and
Context lines not mapping to the target — is refuted by the
counterexample.) -/
theorem c5_amended_unmatched_target (patch : String) (target : Int) (vs : List Int)
    (hv : comparedValues 0 (pySplit patch '\n') = some vs)
    (hmem : target ∉ vs) :
    getPositionInPatch patch target = some ((pySplit patch '\n').length : Int) := by
  have h := positionGo_no_match target (pySplit patch '\n') 0 0 vs hv hmem
  simpa [getPositionInPatch] using h

/-- Witness for C5 (amended) at a concrete patch. -/
theorem c5_amended_unmatched_target_witness :
    comparedValues 0 (pySplit "@@ -1,2 +1,3 @@\n a\n+b\n-c" '\n') = some [1, 2] ∧
    (99 : Int) ∉ [(1 : Int), 2] ∧
    getPositionInPatch "@@ -1,2 +1,3 @@\n a\n+b\n-c" 99 = some 4 := by
  refine ⟨by decide, by decide, ?_⟩
  have h := c5_amended_unmatched_target "@@ -1,2 +1,3 @@\n a\n+b\n-c" 99 [1, 2]
    (by decide) (by decide)
  rw [h]
  decide

/-- Claim C5 counterexample: in the patch below the only Addition/Context
entries are the two Context lines at new-file lines 3 and 4, so the target
2 is mapped by no Addition or Context line; the claim then requires the
final position (7 = total lines), but the code compares its counter on the
pre-hunk header lines and returns 4 at the `+++ b/f` line. -/
theorem c5_counterexample :
    getPositionInPatch
        "diff --git a/f b/f\nindex 111..222 100644\n--- a/f\n+++ b/f\n@@ -3,2 +3,2 @@\n x\n y"
        2 = some 4 ∧
    (4 : Int) ≠
      ((pySplit
          "diff --git a/f b/f\nindex 111..222 100644\n--- a/f\n+++ b/f\n@@ -3,2 +3,2 @@\n x\n y"
          '\n').length : Int) ∧
    ((extractLineChanges
        (pySplit
          "diff --git a/f b/f\nindex 111..222 100644\n--- a/f\n+++ b/f\n@@ -3,2 +3,2 @@\n x\n y"
          '\n')).getD []).filterMap selNew = [3, 4] ∧
    (2 : Int) ∉ [(3 : Int), 4] := by
  exact ⟨rfl, by decide, by decide, by decide⟩

/-- Claim C8: if the LLM response text contains a first `[` and a last `]`
enclosing a span that decodes as a JSON array, the result is exactly the
records of that array that are objects with both a `line` and a `content`
field, in order; if no such span exists, or decoding fails, the result is
the empty list (the decode error is caught, nothing propagates). The final
conjunct is the claim's concrete example, yielding exactly one comment
with `line = 2`. -/
theorem c8_parse_llm_response (text : String) (vs : List Json) :
    (0 ≤ pyFind text '[' →
      pyFind text '[' < pyRfind text ']' + 1 →
      jsonLoads (pySlice text (pyFind text '[') (pyRfind text ']' + 1)) = some (Json.arr vs) →
      parseAnalysisResponse text = vs.filter isValidComment) ∧
    (¬ (0 ≤ pyFind text '[' ∧ pyFind text '[' < pyRfind text ']' + 1) →
      parseAnalysisResponse text = []) ∧
    (jsonLoads (pySlice text (pyFind text '[') (pyRfind text ']' + 1)) = none →
      parseAnalysisResponse text = []) ∧
    parseAnalysisResponse "Here you go:\n[\x7b\"line\": 2, \"content\": \"Consider renaming.\"\x7d]\nThanks" =
      [Json.obj [("line", Json.num 2), ("content", Json.str "Consider renaming.")]] := by
  refine ⟨?_, ?_, ?_, by rfl⟩
  · intro h1 h2 h3
    rw [parseAnalysisResponse, if_pos ⟨h1, h2⟩, h3]
  · intro h
    rw [parseAnalysisResponse, if_neg h]
  · intro h
    by_cases hc : 0 ≤ pyFind text '[' ∧ pyFind text '[' < pyRfind text ']' + 1
    · rw [parseAnalysisResponse, if_pos hc, h]
    · rw [parseAnalysisResponse, if_neg hc]

/-- Witness for C8 at the claim's example text. -/
theorem c8_parse_llm_response_witness :
    0 ≤ pyFind "Here you go:\n[\x7b\"line\": 2, \"content\": \"Consider renaming.\"\x7d]\nThanks" '[' ∧
    jsonLoads (pySlice "Here you go:\n[\x7b\"line\": 2, \"content\": \"Consider renaming.\"\x7d]\nThanks"
        (pyFind "Here you go:\n[\x7b\"line\": 2, \"content\": \"Consider renaming.\"\x7d]\nThanks" '[')
        (pyRfind "Here you go:\n[\x7b\"line\": 2, \"content\": \"Consider renaming.\"\x7d]\nThanks" ']' + 1)) =
      some (Json.arr [Json.obj [("line", Json.num 2), ("content", Json.str "Consider renaming.")]]) ∧
    parseAnalysisResponse "Here you go:\n[\x7b\"line\": 2, \"content\": \"Consider renaming.\"\x7d]\nThanks" =
      [Json.obj [("line", Json.num 2), ("content", Json.str "Consider renaming.")]] := by
  refine ⟨by decide, by rfl, ?_⟩
  exact (c8_parse_llm_response
    "Here you go:\n[\x7b\"line\": 2, \"content\": \"Consider renaming.\"\x7d]\nThanks"
    [Json.obj [("line", Json.num 2), ("content", Json.str "Consider renaming.")]]).1
    (by decide) (by decide) (by rfl)

/-- Claim C9 (amended): when the primary inline attempt fails with a platform
`GithubException`, `post_comment` falls back to a single issue-level
comment whose body is `**filePath:line**` (blank line) followed by the
comment text, returning `True` on success; if the fallback also fails (any
exception), it returns `False` without raising. A failure of the primary
attempt that is not a `GithubException` — in particular the generic
`Exception` raised when the file is not in the PR's file list — is not
caught and propagates to the caller (see the counterexample), aborting the
remaining batch. -/
theorem c9_amended_fallback (prelim : Except Exc Unit) (cr : Int → Except Exc Unit)
    (ci : String → Except Exc Unit) (files : List (String × String))
    (fp : String) (ln : Int) (txt msg : String)
    (h : (do
        prelim
        let pos ← getPositionInDiffE files fp ln
        cr pos : Except Exc Unit) = Except.error (Exc.github msg)) :
    postComment prelim cr ci files fp ln txt =
      (match ci (fallbackBody fp ln txt) with
        | Except.ok _ => Except.ok true
        | Except.error _ => Except.ok false) ∧
    (∀ e2, ci (fallbackBody fp ln txt) = Except.error e2 →
      postComment prelim cr ci files fp ln txt = Except.ok false) := by
  constructor
  · rw [postComment, h]
  · intro e2 he2
    rw [postComment, h, he2]

/-- Witness for C9 (amended) at concrete oracles: the platform rejects the
inline comment with a `GithubException` and the fallback also fails, so
`post_comment` returns `False` without raising. -/
theorem c9_amended_fallback_witness :
    (do
      Except.ok ()
      let pos ← getPositionInDiffE [("f.py", "@@ -1 +1 @@\n x")] "f.py" 5
      (fun _ => Except.error (Exc.github "422 Unprocessable")) pos : Except Exc Unit) =
      Except.error (Exc.github "422 Unprocessable") ∧
    postComment (Except.ok ()) (fun _ => Except.error (Exc.github "422 Unprocessable"))
      (fun _ => Except.error (Exc.generic "boom")) [("f.py", "@@ -1 +1 @@\n x")]
      "f.py" 5 "hi" = Except.ok false :=
  ⟨rfl,
    (c9_amended_fallback (Except.ok ()) (fun _ => Except.error (Exc.github "422 Unprocessable"))
      (fun _ => Except.error (Exc.generic "boom")) [("f.py", "@@ -1 +1 @@\n x")]
      "f.py" 5 "hi" "422 Unprocessable" rfl).2 (Exc.generic "boom") rfl⟩

/-- Claim C9 counterexample: when the target file is not in the PR's file
list, `post_comment` does not fall back and does not return `False`: the
generic `Exception` raised by `_get_position_in_diff` escapes the
`except GithubException` clause and propagates to the caller. -/
theorem c9_counterexample :
    postComment (Except.ok ()) (fun _ => Except.ok ()) (fun _ => Except.ok ())
        [("g.py", "@@ -1 +1 @@\n x")] "f.py" 3 "hi" =
      Except.error (Exc.generic "File f.py not found in the pull request") ∧
    (Except.error (Exc.generic "File f.py not found in the pull request") :
        Except Exc Bool) ≠ Except.ok false ∧
    (Except.error (Exc.generic "File f.py not found in the pull request") :
        Except Exc Bool) ≠ Except.ok true :=
  ⟨rfl, fun h => Except.noConfusion h, fun h => Except.noConfusion h⟩

/-- Extractor step: a line outside any hunk (and no header seen yet) is
ignored. -/
theorem extractGo_cons_outside (l : String) (ls : List String) (o n : Int)
    (hh : pyStartsWith l "@@" = false) :
    extractGo false o n (l :: ls) = extractGo false o n ls := by
  simp [extractGo, hh]

/-- Extractor step: a well-formed hunk header resets both counters. -/
theorem extractGo_cons_header (l : String) (ls : List String) (i : Bool) (o n o2 n2 : Int)
    (hh : pyStartsWith l "@@" = true) (hl : 3 ≤ (pySplit l ' ').length)
    (hp1 : parseStart (getTok (pySplit l ' ') 1) = some o2)
    (hp2 : parseStart (getTok (pySplit l ' ') 2) = some n2) :
    extractGo i o n (l :: ls) = extractGo true o2 n2 ls := by
  simp [extractGo, hh, hl, hp1, hp2]

/-- Lines before the first hunk header are ignored by the extractor. -/
theorem extractGo_skip_pre (o n : Int) (pre rest : List String)
    (hpre : ∀ l ∈ pre, pyStartsWith l "@@" = false) :
    extractGo false o n (pre ++ rest) = extractGo false o n rest := by
  induction pre with
  | nil => rfl
  | cons l ls ih =>
    rw [List.cons_append,
      extractGo_cons_outside l (ls ++ rest) o n (hpre l (List.mem_cons_self l ls))]
    exact ih (fun x hx => hpre x (List.mem_cons_of_mem _ hx))

/-- On a header-free hunk body the extractor emits `hunkChanges` and leaves
the counters advanced by the body's old/new counts. -/
theorem extractGo_body (body : List String)
    (hb : ∀ l ∈ body, pyStartsWith l "@@" = false) :
    ∀ (o n : Int) (rest : List String),
      extractGo true o n (body ++ rest) =
        (extractGo true (o + (oldCount body : Int)) (n + (newCount body : Int)) rest).map
          (fun cs => hunkChanges o n body ++ cs) := by
  induction body with
  | nil =>
    intro o n rest
    simp [hunkChanges, oldCount, newCount]
  | cons l ls ih =>
    intro o n rest
    have hh : pyStartsWith l "@@" = false := hb l (List.mem_cons_self l ls)
    have hb' : ∀ x ∈ ls, pyStartsWith x "@@" = false :=
      fun x hx => hb x (List.mem_cons_of_mem _ hx)
    rw [List.cons_append]
    cases hp : pyStartsWith l "+" with
    | true =>
      have h1 : extractGo true o n (l :: (ls ++ rest)) =
          (extractGo true o (n + 1) (ls ++ rest)).map
            (fun cs => Change.addition n (pyDrop l 1) :: cs) := by
        simp [extractGo, hh, hp]
      rw [h1, ih hb' o (n + 1) rest, Option.map_map]
      have hcnt : (newCount (l :: ls) : Int) = (newCount ls : Int) + 1 := by
        simp [newCount, hp]
      have hocnt : (oldCount (l :: ls) : Int) = (oldCount ls : Int) := by
        simp [oldCount, hp]
      have hch : hunkChanges o n (l :: ls) =
          Change.addition n (pyDrop l 1) :: hunkChanges o (n + 1) ls := by
        simp [hunkChanges, hp]
      rw [hcnt, hocnt, hch]
      have harg : n + ((newCount ls : Int) + 1) = n + 1 + (newCount ls : Int) := by ring
      rw [harg]
      rfl
    | false =>
      cases hm : pyStartsWith l "-" with
      | true =>
        have h1 : extractGo true o n (l :: (ls ++ rest)) =
            (extractGo true (o + 1) n (ls ++ rest)).map
              (fun cs => Change.deletion o (pyDrop l 1) :: cs) := by
          simp [extractGo, hh, hp, hm]
        rw [h1, ih hb' (o + 1) n rest, Option.map_map]
        have hcnt : (newCount (l :: ls) : Int) = (newCount ls : Int) := by
          simp [newCount, hp, hm]
        have hocnt : (oldCount (l :: ls) : Int) = (oldCount ls : Int) + 1 := by
          simp [oldCount, hp, hm]
        have hch : hunkChanges o n (l :: ls) =
            Change.deletion o (pyDrop l 1) :: hunkChanges (o + 1) n ls := by
          simp [hunkChanges, hp, hm]
        rw [hcnt, hocnt, hch]
        have harg : o + ((oldCount ls : Int) + 1) = o + 1 + (oldCount ls : Int) := by ring
        rw [harg]
        rfl
      | false =>
        cases hbs : pyStartsWith l "\\" with
        | true =>
          have h1 : extractGo true o n (l :: (ls ++ rest)) =
              extractGo true o n (ls ++ rest) := by
            simp [extractGo, hh, hp, hm, hbs]
          rw [h1, ih hb' o n rest]
          have hcnt : (newCount (l :: ls) : Int) = (newCount ls : Int) := by
            simp [newCount, hp, hm, hbs]
          have hocnt : (oldCount (l :: ls) : Int) = (oldCount ls : Int) := by
            simp [oldCount, hp, hm, hbs]
          have hch : hunkChanges o n (l :: ls) = hunkChanges o n ls := by
            simp [hunkChanges, hp, hm, hbs]
          rw [hcnt, hocnt, hch]
        | false =>
          have h1 : extractGo true o n (l :: (ls ++ rest)) =
              (extractGo true (o + 1) (n + 1) (ls ++ rest)).map
                (fun cs => Change.context o n (pyDrop l 1) :: cs) := by
            simp [extractGo, hh, hp, hm, hbs]
          rw [h1, ih hb' (o + 1) (n + 1) rest, Option.map_map]
          have hcnt : (newCount (l :: ls) : Int) = (newCount ls : Int) + 1 := by
            simp [newCount, hp, hm, hbs]
          have hocnt : (oldCount (l :: ls) : Int) = (oldCount ls : Int) + 1 := by
            simp [oldCount, hp, hm, hbs]
          have hch : hunkChanges o n (l :: ls) =
              Change.context o n (pyDrop l 1) :: hunkChanges (o + 1) (n + 1) ls := by
            simp [hunkChanges, hp, hm, hbs]
          rw [hcnt, hocnt, hch]
          have harg1 : o + ((oldCount ls : Int) + 1) = o + 1 + (oldCount ls : Int) := by ring
          have harg2 : n + ((newCount ls : Int) + 1) = n + 1 + (newCount ls : Int) := by ring
          rw [harg1, harg2]
          rfl

/-- Walking a list of well-formed hunks emits the concatenation of their
`hunkChanges`, regardless of the incoming state. -/
theorem extractGo_hunks (hunks : List Hunk) (hwf : ∀ h ∈ hunks, WFHunk h) :
    ∀ (i : Bool) (o n : Int),
      extractGo i o n (hunks.flatMap hunkLines) =
        some (hunks.flatMap (fun h => hunkChanges h.oldStart h.newStart h.body)) := by
  induction hunks with
  | nil => intro i o n; rfl
  | cons h tl ih =>
    intro i o n
    obtain ⟨w1, w2, w3, w4⟩ := hwf h (List.mem_cons_self h tl)
    obtain ⟨w4, w5⟩ := w4
    have hflat : (h :: tl).flatMap hunkLines = h.header :: (h.body ++ tl.flatMap hunkLines) := by
      simp [hunkLines]
    rw [hflat, extractGo_cons_header h.header _ i o n h.oldStart h.newStart w1 w2 w3 w4]
    rw [extractGo_body h.body w5 h.oldStart h.newStart (tl.flatMap hunkLines)]
    rw [ih (fun a ha => hwf a (List.mem_cons_of_mem _ ha)) true _ _]
    simp

/-- The new-file numbers of the Addition/Context entries a hunk body emits
form the contiguous range starting at the incoming new counter. -/
theorem hunkChanges_selNew (body : List String) : ∀ (o n : Int),
    (hunkChanges o n body).filterMap selNew =
      (List.range (newCount body)).map (fun (i : Nat) => n + (i : Int)) := by
  induction body with
  | nil => intro o n; simp [hunkChanges, newCount]
  | cons l ls ih =>
    intro o n
    cases hp : pyStartsWith l "+" with
    | true =>
      have hch : hunkChanges o n (l :: ls) =
          Change.addition n (pyDrop l 1) :: hunkChanges o (n + 1) ls := by
        simp [hunkChanges, hp]
      have hcnt : newCount (l :: ls) = newCount ls + 1 := by simp [newCount, hp]
      rw [hch, hcnt, List.filterMap_cons]
      simp only [selNew]
      rw [ih o (n + 1), List.range_succ_eq_map, List.map_cons, List.map_map]
      simp only [Nat.cast_zero, add_zero]
      congr 1
      apply List.map_congr_left
      intro i _
      simp only [Function.comp_apply]
      push_cast
      ring
    | false =>
      cases hm : pyStartsWith l "-" with
      | true =>
        have hch : hunkChanges o n (l :: ls) =
            Change.deletion o (pyDrop l 1) :: hunkChanges (o + 1) n ls := by
          simp [hunkChanges, hp, hm]
        have hcnt : newCount (l :: ls) = newCount ls := by simp [newCount, hp, hm]
        rw [hch, hcnt, List.filterMap_cons]
        simp only [selNew]
        exact ih (o + 1) n
      | false =>
        cases hbs : pyStartsWith l "\\" with
        | true =>
          have hch : hunkChanges o n (l :: ls) = hunkChanges o n ls := by
            simp [hunkChanges, hp, hm, hbs]
          have hcnt : newCount (l :: ls) = newCount ls := by simp [newCount, hp, hm, hbs]
          rw [hch, hcnt]
          exact ih o n
        | false =>
          have hch : hunkChanges o n (l :: ls) =
              Change.context o n (pyDrop l 1) :: hunkChanges (o + 1) (n + 1) ls := by
            simp [hunkChanges, hp, hm, hbs]
          have hcnt : newCount (l :: ls) = newCount ls + 1 := by
            simp [newCount, hp, hm, hbs]
          rw [hch, hcnt, List.filterMap_cons]
          simp only [selNew]
          rw [ih (o + 1) (n + 1), List.range_succ_eq_map, List.map_cons, List.map_map]
          simp only [Nat.cast_zero, add_zero]
          congr 1
          apply List.map_congr_left
          intro i _
          simp only [Function.comp_apply]
          push_cast
          ring

/-- The old-file numbers of the Deletion/Context entries a hunk body emits
form the contiguous range starting at the incoming old counter. -/
theorem hunkChanges_selOld (body : List String) : ∀ (o n : Int),
    (hunkChanges o n body).filterMap selOld =
      (List.range (oldCount body)).map (fun (i : Nat) => o + (i : Int)) := by
  induction body with
  | nil => intro o n; simp [hunkChanges, oldCount]
  | cons l ls ih =>
    intro o n
    cases hp : pyStartsWith l "+" with
    | true =>
      have hch : hunkChanges o n (l :: ls) =
          Change.addition n (pyDrop l 1) :: hunkChanges o (n + 1) ls := by
        simp [hunkChanges, hp]
      have hcnt : oldCount (l :: ls) = oldCount ls := by simp [oldCount, hp]
      rw [hch, hcnt, List.filterMap_cons]
      simp only [selOld]
      exact ih o (n + 1)
    | false =>
      cases hm : pyStartsWith l "-" with
      | true =>
        have hch : hunkChanges o n (l :: ls) =
            Change.deletion o (pyDrop l 1) :: hunkChanges (o + 1) n ls := by
          simp [hunkChanges, hp, hm]
        have hcnt : oldCount (l :: ls) = oldCount ls + 1 := by simp [oldCount, hp, hm]
        rw [hch, hcnt, List.filterMap_cons]
        simp only [selOld]
        rw [ih (o + 1) n, List.range_succ_eq_map, List.map_cons, List.map_map]
        simp only [Nat.cast_zero, add_zero]
        congr 1
        apply List.map_congr_left
        intro i _
        simp only [Function.comp_apply]
        push_cast
        ring
      | false =>
        cases hbs : pyStartsWith l "\\" with
        | true =>
          have hch : hunkChanges o n (l :: ls) = hunkChanges o n ls := by
            simp [hunkChanges, hp, hm, hbs]
          have hcnt : oldCount (l :: ls) = oldCount ls := by simp [oldCount, hp, hm, hbs]
          rw [hch, hcnt]
          exact ih o n
        | false =>
          have hch : hunkChanges o n (l :: ls) =
              Change.context o n (pyDrop l 1) :: hunkChanges (o + 1) (n + 1) ls := by
            simp [hunkChanges, hp, hm, hbs]
          have hcnt : oldCount (l :: ls) = oldCount ls + 1 := by
            simp [oldCount, hp, hm, hbs]
          rw [hch, hcnt, List.filterMap_cons]
          simp only [selOld]
          rw [ih (o + 1) (n + 1), List.range_succ_eq_map, List.map_cons, List.map_map]
          simp only [Nat.cast_zero, add_zero]
          congr 1
          apply List.map_congr_left
          intro i _
          simp only [Function.comp_apply]
          push_cast
          ring

/-- The `filterMap` of a `flatMap` distributes inside. -/
theorem filterMap_flatMap {α β γ : Type} (l : List α) (g : α → List β) (f : β → Option γ) :
    (l.flatMap g).filterMap f = l.flatMap (fun a => (g a).filterMap f) := by
  induction l with
  | nil => rfl
  | cons a tl ih => simp [List.filterMap_append, ih]

/-- Every element of a chained sequence of contiguous blocks is bounded
below by any bound on the first block's start. -/
theorem flat_blocks_lb {α : Type} (f : α → Int) (cnt : α → Nat) :
    ∀ (hs : List α) (m : Int),
      List.Chain' (fun a b => f a + (cnt a : Int) ≤ f b) hs →
      (∀ a ∈ hs.head?, m ≤ f a) →
      ∀ x ∈ hs.flatMap (fun a => (List.range (cnt a)).map (fun (i : Nat) => f a + (i : Int))), m ≤ x := by
  intro hs
  induction hs with
  | nil => intro m _ _ x hx; simp at hx
  | cons a tl ih =>
    intro m hchain hhead x hx
    have hma : m ≤ f a := hhead a rfl
    rw [List.flatMap_cons, List.mem_append] at hx
    rcases hx with hx | hx
    · rw [List.mem_map] at hx
      obtain ⟨i, _, rfl⟩ := hx
      have : (0 : Int) ≤ (i : Int) := Int.natCast_nonneg i
      omega
    · rw [List.chain'_cons'] at hchain
      refine ih m hchain.2 ?_ x hx
      intro b hb
      have := hchain.1 b hb
      have : (0 : Int) ≤ (cnt a : Int) := Int.natCast_nonneg _
      omega

/-- The concatenation of contiguous blocks whose starts are chained is
non-decreasing. -/
theorem flat_blocks_pairwise {α : Type} (f : α → Int) (cnt : α → Nat) :
    ∀ (hs : List α),
      List.Chain' (fun a b => f a + (cnt a : Int) ≤ f b) hs →
      List.Pairwise (· ≤ ·)
        (hs.flatMap (fun a => (List.range (cnt a)).map (fun (i : Nat) => f a + (i : Int)))) := by
  intro hs
  induction hs with
  | nil => intro _; simp
  | cons a tl ih =>
    intro hchain
    rw [List.chain'_cons'] at hchain
    rw [List.flatMap_cons, List.pairwise_append]
    refine ⟨?_, ih hchain.2, ?_⟩
    · rw [List.pairwise_map]
      refine (List.pairwise_lt_range (cnt a)).imp ?_
      intro i j hij
      omega
    · intro x hx y hy
      rw [List.mem_map] at hx
      obtain ⟨i, hi, rfl⟩ := hx
      rw [List.mem_range] at hi
      have hylb : f a + (cnt a : Int) ≤ y := by
        refine flat_blocks_lb f cnt tl (f a + (cnt a : Int)) hchain.2 ?_ y hy
        intro b hb
        exact hchain.1 b hb
      omega

/-- Claim C3: for a well-formed file diff — any prefix with no `@@` line
followed by well-formed hunks whose declared starts do not run backwards —
extraction succeeds and yields the concatenation of the per-hunk change
lists; within each hunk the `newLineNumber` values over Addition/Context
entries form the contiguous range starting at the hunk's declared
`newStart` (so the counter increments exactly once per such entry), and
symmetrically the `oldLineNumber` values over Deletion/Context entries form
the contiguous range starting at `oldStart`; and over the whole file the
Addition/Context `newLineNumber` sequence (and likewise the
Deletion/Context `oldLineNumber` sequence) is non-decreasing. -/
theorem c3_extract_invariants (pre : List String) (hunks : List Hunk)
    (hpre : ∀ l ∈ pre, pyStartsWith l "@@" = false)
    (hwf : ∀ h ∈ hunks, WFHunk h)
    (hchain : HunksChained hunks) :
    extractLineChanges (pre ++ hunks.flatMap hunkLines) =
      some (hunks.flatMap (fun h => hunkChanges h.oldStart h.newStart h.body)) ∧
    (∀ h ∈ hunks,
      (hunkChanges h.oldStart h.newStart h.body).filterMap selNew =
        (List.range (newCount h.body)).map (fun (i : Nat) => h.newStart + (i : Int))) ∧
    (∀ h ∈ hunks,
      (hunkChanges h.oldStart h.newStart h.body).filterMap selOld =
        (List.range (oldCount h.body)).map (fun (i : Nat) => h.oldStart + (i : Int))) ∧
    List.Pairwise (· ≤ ·)
      ((hunks.flatMap (fun h => hunkChanges h.oldStart h.newStart h.body)).filterMap selNew) ∧
    List.Pairwise (· ≤ ·)
      ((hunks.flatMap (fun h => hunkChanges h.oldStart h.newStart h.body)).filterMap selOld) := by
  have hnewEq :
      (hunks.flatMap (fun h => hunkChanges h.oldStart h.newStart h.body)).filterMap selNew =
        hunks.flatMap
          (fun h => (List.range (newCount h.body)).map (fun (i : Nat) => h.newStart + (i : Int))) := by
    rw [filterMap_flatMap]
    exact congrArg _ (funext fun h => hunkChanges_selNew h.body h.oldStart h.newStart)
  have holdEq :
      (hunks.flatMap (fun h => hunkChanges h.oldStart h.newStart h.body)).filterMap selOld =
        hunks.flatMap
          (fun h => (List.range (oldCount h.body)).map (fun (i : Nat) => h.oldStart + (i : Int))) := by
    rw [filterMap_flatMap]
    exact congrArg _ (funext fun h => hunkChanges_selOld h.body h.oldStart h.newStart)
  refine ⟨?_, ?_, ?_, ?_, ?_⟩
  · rw [extractLineChanges, extractGo_skip_pre 0 0 pre _ hpre]
    exact extractGo_hunks hunks hwf false 0 0
  · intro h _
    exact hunkChanges_selNew h.body h.oldStart h.newStart
  · intro h _
    exact hunkChanges_selOld h.body h.oldStart h.newStart
  · rw [hnewEq]
    exact flat_blocks_pairwise (fun h => h.newStart) (fun h => newCount h.body) hunks
      (hchain.imp (fun a b hab => hab.1))
  · rw [holdEq]
    exact flat_blocks_pairwise (fun h => h.oldStart) (fun h => oldCount h.body) hunks
      (hchain.imp (fun a b hab => hab.2))

/-- Witness for C3 at a concrete two-hunk diff. -/
theorem c3_extract_invariants_witness :
    (∀ h ∈ [Hunk.mk "@@ -1,2 +1,3 @@" 1 1 [" a", "+b"],
        Hunk.mk "@@ -10,2 +11,2 @@" 10 11 [" c", "-d"]], WFHunk h) ∧
    HunksChained [Hunk.mk "@@ -1,2 +1,3 @@" 1 1 [" a", "+b"],
      Hunk.mk "@@ -10,2 +11,2 @@" 10 11 [" c", "-d"]] ∧
    extractLineChanges
        (["diff --git a/f b/f"] ++
          ([Hunk.mk "@@ -1,2 +1,3 @@" 1 1 [" a", "+b"],
            Hunk.mk "@@ -10,2 +11,2 @@" 10 11 [" c", "-d"]].flatMap hunkLines)) =
      some
        ([Hunk.mk "@@ -1,2 +1,3 @@" 1 1 [" a", "+b"],
          Hunk.mk "@@ -10,2 +11,2 @@" 10 11 [" c", "-d"]].flatMap
          (fun h => hunkChanges h.oldStart h.newStart h.body)) := by
  have hchain : HunksChained [Hunk.mk "@@ -1,2 +1,3 @@" 1 1 [" a", "+b"],
      Hunk.mk "@@ -10,2 +11,2 @@" 10 11 [" c", "-d"]] :=
    List.chain'_cons.mpr ⟨⟨by decide, by decide⟩, List.chain'_singleton _⟩
  refine ⟨by decide, hchain, ?_⟩
  exact (c3_extract_invariants ["diff --git a/f b/f"]
    [Hunk.mk "@@ -1,2 +1,3 @@" 1 1 [" a", "+b"],
     Hunk.mk "@@ -10,2 +11,2 @@" 10 11 [" c", "-d"]]
    (by decide) (by decide) hchain).1

/-- Unfolding `joinLines` on a cons with a non-empty tail. -/
theorem joinLines_cons (a : String) (l : List String) (hl : l ≠ []) :
    joinLines (a :: l) = a ++ "\n" ++ joinLines l := by
  cases l with
  | nil => exact absurd rfl hl
  | cons b bs => rfl

/-- The join `joinLines` splits over append of non-empty lists (so each part is a
contiguous byte slice of the whole). -/
theorem joinLines_append : ∀ (xs ys : List String), xs ≠ [] → ys ≠ [] →
    joinLines (xs ++ ys) = joinLines xs ++ "\n" ++ joinLines ys := by
  intro xs
  induction xs with
  | nil => intro ys hx _; exact absurd rfl hx
  | cons a as ih =>
    intro ys hx hy
    cases as with
    | nil =>
      cases ys with
      | nil => exact absurd rfl hy
      | cons b bs => rfl
    | cons a2 as2 =>
      have h1 : joinLines ((a :: a2 :: as2) ++ ys) =
          a ++ "\n" ++ joinLines ((a2 :: as2) ++ ys) := rfl
      rw [List.cons_append] at h1
      rw [List.cons_append, h1, ih ys (by simp) hy,
        joinLines_cons a (a2 :: as2) (by simp)]
      simp [String.append_assoc]

/-- A non-empty list of segments contributes a non-empty line list. -/
theorem flatMap_segLines_ne_nil (s : Seg) (rest : List Seg) :
    (s :: rest).flatMap segLines ≠ [] := by
  simp [segLines]

/-- Joining all segment lines equals joining the per-segment joined
contents: the stored contents tile the input slice byte for byte. -/
theorem joinLines_flatMap_segs : ∀ (segs : List Seg), segs ≠ [] →
    joinLines (segs.flatMap segLines) =
      joinLines (segs.map (fun s => joinLines (segLines s))) := by
  intro segs
  induction segs with
  | nil => intro h; exact absurd rfl h
  | cons s rest ih =>
    intro _
    cases rest with
    | nil =>
      have h : ([s] : List Seg).flatMap segLines = segLines s := by simp [segLines]
      rw [h]
      rfl
    | cons s2 rest2 =>
      have h1 : (s :: s2 :: rest2).flatMap segLines =
          segLines s ++ (s2 :: rest2).flatMap segLines := by
        simp [segLines]
      rw [h1,
        joinLines_append (segLines s) ((s2 :: rest2).flatMap segLines) (by simp [segLines])
          (flatMap_segLines_ne_nil s2 rest2),
        ih (by simp)]
      have h2 : List.map (fun s => joinLines (segLines s)) (s :: s2 :: rest2) =
          joinLines (segLines s) ::
            List.map (fun s => joinLines (segLines s)) (s2 :: rest2) := rfl
      rw [h2, joinLines_cons _ _ (by simp)]

/-- Parse-loop step: with an open non-empty file, a non-header line is
appended to the current buffer. -/
theorem parseGo_cons_append (d : List (String × FileDiff)) (g : String) (cl : List String)
    (l : String) (rest : List String) (hh : pyStartsWith l "diff --git" = false)
    (hg : g ≠ "") :
    parseGo d (some g) cl (l :: rest) = parseGo d (some g) (cl ++ [l]) rest := by
  have hgb : (g == "") = false := beq_eq_false_iff_ne.mpr hg
  simp [parseGo, hh, fileTruthy, hgb]

/-- Parse-loop step: a `diff --git` header with at least four tokens saves
the current file and opens the new one. -/
theorem parseGo_cons_fileheader (d d' : List (String × FileDiff)) (cf : Option String)
    (cl : List String) (l : String) (rest : List String)
    (hh : pyStartsWith l "diff --git" = true)
    (hl : 4 ≤ (pySplit l ' ').length)
    (hd : saveCurrent d cf cl = some d') :
    parseGo d cf cl (l :: rest) =
      parseGo d' (some (pyDrop (getTok (pySplit l ' ') 3) 2)) [l] rest := by
  simp [parseGo, hh, hd, hl]

/-- A body with no file header is wholly appended to the open buffer. -/
theorem parseGo_append_body (body : List String)
    (hb : ∀ l ∈ body, pyStartsWith l "diff --git" = false) :
    ∀ (d : List (String × FileDiff)) (g : String) (cl rest : List String), g ≠ "" →
      parseGo d (some g) cl (body ++ rest) = parseGo d (some g) (cl ++ body) rest := by
  induction body with
  | nil => intro d g cl rest _; rw [List.nil_append, List.append_nil]
  | cons l ls ih =>
    intro d g cl rest hg
    rw [List.cons_append,
      parseGo_cons_append d g cl l (ls ++ rest) (hb l (List.mem_cons_self l ls)) hg,
      ih (fun x hx => hb x (List.mem_cons_of_mem _ hx)) d g (cl ++ [l]) rest hg]
    simp [List.append_assoc]

/-- Inserting a fresh key appends at the end. -/
theorem dictInsert_fresh (d : List (String × FileDiff)) (k : String) (v : FileDiff)
    (hk : ∀ p ∈ d, p.1 ≠ k) :
    dictInsert d k v = d ++ [(k, v)] := by
  have hany : (d.any fun p => p.1 == k) = false := by
    rw [List.any_eq_false]
    intro p hp
    simp only [beq_iff_eq]
    exact hk p hp
  simp [dictInsert, hany]

/-- Saving an open, non-empty, extractable file stores its joined content
and extracted changes. -/
theorem saveCurrent_some (d : List (String × FileDiff)) (f : String) (cl : List String)
    (cs : List Change) (hf : f ≠ "") (hcl : cl ≠ [])
    (hex : extractLineChanges cl = some cs) :
    saveCurrent d (some f) cl = some (dictInsert d f ⟨joinLines cl, cs⟩) := by
  simp [saveCurrent, hf, hcl, hex]

/-- Core segment induction for the parser: starting with an open fresh file
`f` whose buffer is `cl`, walking the lines of well-formed segments with
pairwise-distinct fresh paths produces exactly one dictionary entry per
file, each holding the `joinLines` of its own segment's lines. -/
theorem parseGo_segs : ∀ (segs : List Seg) (d : List (String × FileDiff)) (f : String)
    (cl : List String) (cs : List Change),
    f ≠ "" → cl ≠ [] →
    extractLineChanges cl = some cs →
    (∀ s ∈ segs, WFSeg s) →
    (∀ s ∈ segs, (extractLineChanges (segLines s)).isSome = true) →
    (∀ p ∈ d, p.1 ≠ f ∧ ∀ s ∈ segs, p.1 ≠ segPath s) →
    (∀ s ∈ segs, segPath s ≠ f) →
    (segs.map segPath).Nodup →
    parseGo d (some f) cl (segs.flatMap segLines) =
      some ((d ++ [(f, ⟨joinLines cl, cs⟩)]) ++
        segs.map (fun s =>
          (segPath s,
            ⟨joinLines (segLines s), (extractLineChanges (segLines s)).getD []⟩))) := by
  intro segs
  induction segs with
  | nil =>
    intro d f cl cs hf hcl hex _ _ hdk _ _
    have h0 : parseGo d (some f) cl [] = saveCurrent d (some f) cl := rfl
    rw [List.flatMap_nil, h0, saveCurrent_some d f cl cs hf hcl hex,
      dictInsert_fresh d f _ (fun p hp => (hdk p hp).1)]
    simp
  | cons s rest ih =>
    intro d f cl cs hf hcl hex hwf hexs hdk hsf hnd
    obtain ⟨w1, w2, w3, w4⟩ := hwf s (List.mem_cons_self s rest)
    cases ho : extractLineChanges (segLines s) with
    | none =>
      have := hexs s (List.mem_cons_self s rest)
      rw [ho] at this
      simp at this
    | some cs2 =>
      have hflat : (s :: rest).flatMap segLines =
          s.header :: (s.body ++ rest.flatMap segLines) := by
        simp [segLines]
      rw [hflat,
        parseGo_cons_fileheader d (dictInsert d f ⟨joinLines cl, cs⟩) (some f) cl s.header _
          w1 w2 (saveCurrent_some d f cl cs hf hcl hex),
        dictInsert_fresh d f _ (fun p hp => (hdk p hp).1)]
      have hbody : parseGo (d ++ [(f, ⟨joinLines cl, cs⟩)])
          (some (pyDrop (getTok (pySplit s.header ' ') 3) 2)) [s.header]
          (s.body ++ rest.flatMap segLines) =
          parseGo (d ++ [(f, ⟨joinLines cl, cs⟩)]) (some (segPath s))
            (segLines s) (rest.flatMap segLines) := by
        exact parseGo_append_body s.body w4 _ (segPath s) [s.header] _ w3
      rw [hbody]
      have hnd' : (rest.map segPath).Nodup := (List.nodup_cons.mp hnd).2
      have hsnotin : segPath s ∉ rest.map segPath := (List.nodup_cons.mp hnd).1
      have hdk' : ∀ p ∈ d ++ [(f, ⟨joinLines cl, cs⟩)],
          p.1 ≠ segPath s ∧ ∀ r ∈ rest, p.1 ≠ segPath r := by
        intro p hp
        rw [List.mem_append] at hp
        rcases hp with hp | hp
        · exact ⟨(hdk p hp).2 s (List.mem_cons_self s rest),
            fun r hr => (hdk p hp).2 r (List.mem_cons_of_mem _ hr)⟩
        · rw [List.mem_singleton] at hp
          subst hp
          refine ⟨(hsf s (List.mem_cons_self s rest)).symm, ?_⟩
          intro r hr
          exact (hsf r (List.mem_cons_of_mem _ hr)).symm
      have hsf' : ∀ r ∈ rest, segPath r ≠ segPath s := by
        intro r hr heq
        exact hsnotin (heq ▸ List.mem_map_of_mem segPath hr)
      have hih := ih (d ++ [(f, ⟨joinLines cl, cs⟩)]) (segPath s) (segLines s) cs2 w3
        (by simp [segLines]) ho
        (fun x hx => hwf x (List.mem_cons_of_mem _ hx))
        (fun x hx => hexs x (List.mem_cons_of_mem _ hx))
        hdk' hsf' hnd'
      rw [hih, List.map_cons, ho]
      simp [List.append_assoc]

/-- Claim C7: for a well-formed unified diff — lines before the first
`diff --git` header followed by per-file segments with distinct paths,
each a `diff --git` header line plus its following lines — the parser
stores, for each file, exactly the `'\n'`-join of that file's segment
lines as its raw content; and joining the per-file contents back with
`'\n'` reproduces, byte for byte, the slice of the input text from the
first file header to the end (the `joinLines` of all segment lines; with a
non-empty prefix the input text is that slice preceded by
`joinLines pre ++ "\n"`). -/
theorem c7_raw_content_slices (pre : List String) (segs : List Seg)
    (hpre : ∀ l ∈ pre, pyStartsWith l "diff --git" = false)
    (hwf : ∀ s ∈ segs, WFSeg s)
    (hex : ∀ s ∈ segs, (extractLineChanges (segLines s)).isSome = true)
    (hnd : (segs.map segPath).Nodup) :
    parseGo [] none [] (pre ++ segs.flatMap segLines) =
      some (segs.map (fun s =>
        (segPath s,
          ⟨joinLines (segLines s), (extractLineChanges (segLines s)).getD []⟩))) ∧
    (segs ≠ [] →
      joinLines (segs.flatMap segLines) =
        joinLines (segs.map (fun s => joinLines (segLines s)))) ∧
    (pre ≠ [] → segs ≠ [] →
      joinLines (pre ++ segs.flatMap segLines) =
        joinLines pre ++ "\n" ++ joinLines (segs.flatMap segLines)) := by
  refine ⟨?_, joinLines_flatMap_segs segs, ?_⟩
  · rw [parseGo_skip_no_header [] pre _ hpre]
    cases segs with
    | nil => rfl
    | cons s rest =>
      obtain ⟨w1, w2, w3, w4⟩ := hwf s (List.mem_cons_self s rest)
      cases ho : extractLineChanges (segLines s) with
      | none =>
        have := hex s (List.mem_cons_self s rest)
        rw [ho] at this
        simp at this
      | some cs2 =>
        have hflat : (s :: rest).flatMap segLines =
            s.header :: (s.body ++ rest.flatMap segLines) := by
          simp [segLines]
        rw [hflat,
          parseGo_cons_fileheader [] [] none [] s.header _ w1 w2 rfl,
          show pyDrop (getTok (pySplit s.header ' ') 3) 2 = segPath s from rfl]
        have hbody := parseGo_append_body s.body w4 [] (segPath s) [s.header]
          (rest.flatMap segLines) w3
        rw [hbody, show ([s.header] ++ s.body) = segLines s from rfl]
        have hnd' : (rest.map segPath).Nodup := (List.nodup_cons.mp hnd).2
        have hsnotin : segPath s ∉ rest.map segPath := (List.nodup_cons.mp hnd).1
        rw [parseGo_segs rest [] (segPath s) (segLines s) cs2 w3 (by simp [segLines]) ho
          (fun x hx => hwf x (List.mem_cons_of_mem _ hx))
          (fun x hx => hex x (List.mem_cons_of_mem _ hx))
          (by intro p hp; simp at hp)
          (by
            intro r hr heq
            exact hsnotin (heq ▸ List.mem_map_of_mem segPath hr))
          hnd']
        rw [List.map_cons, ho]
        simp
  · intro hp hs
    exact joinLines_append pre (segs.flatMap segLines) hp
      (by
        cases segs with
        | nil => exact absurd rfl hs
        | cons a b => exact flatMap_segLines_ne_nil a b)

/-- Witness for C7 at a concrete two-file diff. -/
theorem c7_raw_content_slices_witness :
    (∀ s ∈ [Seg.mk "diff --git a/a.py b/a.py" ["@@ -1 +1 @@", "+x"],
        Seg.mk "diff --git a/b.py b/b.py" ["@@ -2 +2 @@", "-y"]], WFSeg s) ∧
    parseGo [] none []
        ([] ++ [Seg.mk "diff --git a/a.py b/a.py" ["@@ -1 +1 @@", "+x"],
          Seg.mk "diff --git a/b.py b/b.py" ["@@ -2 +2 @@", "-y"]].flatMap segLines) =
      some ([Seg.mk "diff --git a/a.py b/a.py" ["@@ -1 +1 @@", "+x"],
          Seg.mk "diff --git a/b.py b/b.py" ["@@ -2 +2 @@", "-y"]].map
        (fun s =>
          (segPath s,
            ⟨joinLines (segLines s), (extractLineChanges (segLines s)).getD []⟩))) := by
  refine ⟨by decide, ?_⟩
  exact (c7_raw_content_slices []
    [Seg.mk "diff --git a/a.py b/a.py" ["@@ -1 +1 @@", "+x"],
     Seg.mk "diff --git a/b.py b/b.py" ["@@ -2 +2 @@", "-y"]]
    (by decide) (by decide) (by decide) (by decide)).1

end PrAgent
